import Mathlib

/-!
Verification development for the layout-extraction and pagination engine of
the tsx2slides repository.  The definitions below are a shallow embedding of
the TypeScript sources (`src/services/pageBreaker.ts`,
`src/services/positionCalculator.ts`, `src/services/textExtractor.ts`,
`src/services/fontMapper.ts`, the colour utilities, the stacking-context
tracker and the page-assembly part of `src/services/layoutEngine.ts`).
JavaScript numbers are modelled as exact rationals (`ℚ`); `Math.round` is
modelled as the JS half-up rounding `⌊q + 1/2⌋`; `undefined` results are
modelled with `Option`.
-/

set_option maxHeartbeats 1000000
set_option maxRecDepth 8000

/-- JS `Math.round`: rounds half-up (towards `+∞`) for both signs. -/
def jsRound (q : ℚ) : ℤ := ⌊q + 1/2⌋

/-- `Math.round(q * 1000) / 1000`, the 3-decimal rounding used by
`positionCalculator.ts`. -/
def round3 (q : ℚ) : ℚ := (jsRound (q * 1000) : ℚ) / 1000

/-- `PreciseRect` from `src/services/positionCalculator.ts`: absolute pixel
geometry plus percentage fields relative to the virtual page. -/
structure PreciseRect where
  x : ℚ
  y : ℚ
  width : ℚ
  height : ℚ
  xPercent : ℚ
  yPercent : ℚ
  wPercent : ℚ
  hPercent : ℚ
  deriving DecidableEq, Repr

/-- A `LayoutItem` as consumed by `paginateLayoutItems`.  Only the identity
and the `position` rect are relevant to pagination: the TypeScript code
forwards every other field unchanged through object spreads (`{...el}`),
which the `id` field stands for here. -/
structure LayoutItem where
  id : ℕ
  position : PreciseRect
  deriving DecidableEq, Repr

/-- `PaginationOptions` from `src/services/pageBreaker.ts`.  `maxPages` is
`Option ℕ` with `none` standing for the JS default `Infinity`; `contentHeight`
and `marginPx` are optional exactly as in the source. -/
structure PaginationOptions where
  pageHeight : ℚ
  maxPages : Option ℕ := none
  forceSinglePage : Bool := false
  contentHeight : Option ℚ := none
  marginPx : Option ℚ := none
  deriving DecidableEq, Repr

/-- `PageBreak` from `src/services/pageBreaker.ts`. -/
structure PageBreak where
  yPosition : ℚ
  elements : List LayoutItem
  deriving DecidableEq, Repr

/-- `scaleLayoutToSinglePage` from `src/services/pageBreaker.ts` applies this
per-item scaling: every absolute and percentage geometry field is multiplied
by `scale`. -/
def scaleItem (scale : ℚ) (el : LayoutItem) : LayoutItem :=
  { el with position :=
      { x := el.position.x * scale
        y := el.position.y * scale
        width := el.position.width * scale
        height := el.position.height * scale
        xPercent := el.position.xPercent * scale
        yPercent := el.position.yPercent * scale
        wPercent := el.position.wPercent * scale
        hPercent := el.position.hPercent * scale } }

/-- `scaleLayoutToSinglePage(elements, pageHeight, contentHeight)` from
`src/services/pageBreaker.ts`:
guard clauses for non-positive heights, `scale = pageHeight / contentHeight`
when the content overflows, and an early return when `scale >= 0.999`. -/
def scaleLayoutToSinglePage (elements : List LayoutItem)
    (pageHeight contentHeight : ℚ) : List LayoutItem :=
  if contentHeight ≤ 0 ∨ pageHeight ≤ 0 then elements
  else
    let scale := if pageHeight < contentHeight then pageHeight / contentHeight else 1
    if 999/1000 ≤ scale then elements
    else elements.map (scaleItem scale)

/-- The comparator `(a, b) => a.position.y - b.position.y` of
`paginateLayoutItems`, as the "comes not after" relation of the stable sort
(`Array.prototype.sort` is stable, as is `List.insertionSort`). -/
def itemRel (a b : LayoutItem) : Prop := a.position.y ≤ b.position.y

instance : DecidableRel itemRel :=
  fun a b => inferInstanceAs (Decidable (a.position.y ≤ b.position.y))

instance : IsTotal LayoutItem itemRel :=
  ⟨fun a b => le_total a.position.y b.position.y⟩

instance : IsTrans LayoutItem itemRel :=
  ⟨fun _ _ _ h1 h2 => le_trans h1 h2⟩

/-- `options.maxPages ?? Infinity` compared against a page count: `n < maxPages`
with `none` standing for `Infinity`. -/
def underCap (maxPages : Option ℕ) (n : ℕ) : Bool :=
  match maxPages with
  | none => true
  | some m => decide (n < m)

/-- The `y`/`yPercent` rewrite applied to each element appended to the current
page in `paginateLayoutItems` (`y - currentStart` and
`((y - currentStart) / pageHeight) * 100`). -/
def adjustItem (currentStart pageHeight : ℚ) (el : LayoutItem) : LayoutItem :=
  { el with position :=
      { el.position with
        y := el.position.y - currentStart
        yPercent := (el.position.y - currentStart) / pageHeight * 100 } }

/-- Loop state of `paginateLayoutItems`: the closed pages, the running
`currentStart` page top, and the elements accumulated for the current page. -/
structure PagState where
  pages : List PageBreak
  currentStart : ℚ
  currentElements : List LayoutItem
  deriving DecidableEq, Repr

/-- One iteration of the `for (const el of sorted)` loop of
`paginateLayoutItems`: close the current page when the element's bottom edge
crosses `currentStart + pageHeight - marginPx`, the page is non-empty and the
page cap allows one more page; then append the element with rewritten
`y`/`yPercent`. -/
def pagStep (o : PaginationOptions) (s : PagState) (el : LayoutItem) : PagState :=
  let pageHeight := o.pageHeight
  let marginPx := o.marginPx.getD 8
  let elBottom := el.position.y + el.position.height
  let pageBottom := s.currentStart + pageHeight - marginPx
  let crosses := decide (pageBottom < elBottom) && !s.currentElements.isEmpty
  let s' :=
    if crosses && underCap o.maxPages (s.pages.length + 1) then
      let pages' := s.pages ++ [⟨s.currentStart, s.currentElements⟩]
      PagState.mk pages' ((pages'.length : ℚ) * pageHeight) []
    else s
  { s' with currentElements :=
      s'.currentElements ++ [adjustItem s'.currentStart pageHeight el] }

/-- `paginateLayoutItems(elements, options)` from `src/services/pageBreaker.ts`.
In single-page mode the source maps each scaled element through an identity
spread (`{...el, position: {...el.position, y: el.position.y, yPercent:
el.position.yPercent}}`), which is a no-op and therefore omitted.  In
multi-page mode the elements are stably sorted by absolute top, folded through
`pagStep`, and a final non-empty page is flushed when the cap allows it. -/
def paginateLayoutItems (elements : List LayoutItem)
    (o : PaginationOptions) : List PageBreak :=
  if o.forceSinglePage then
    [⟨0, scaleLayoutToSinglePage elements o.pageHeight
          (o.contentHeight.getD o.pageHeight)⟩]
  else
    let sorted := List.insertionSort itemRel elements
    let fin := sorted.foldl (pagStep o) ⟨[], 0, []⟩
    if !fin.currentElements.isEmpty && underCap o.maxPages fin.pages.length then
      fin.pages ++ [⟨fin.currentStart, fin.currentElements⟩]
    else fin.pages

/-- The geometric fields of a `DOMRect` consumed by the position calculator
(`left`, `top`, `right`, `bottom`, `width`, `height` in device pixels). -/
structure DomRect where
  left : ℚ
  top : ℚ
  right : ℚ
  bottom : ℚ
  width : ℚ
  height : ℚ
  deriving DecidableEq, Repr

/-- `ContainerInfo` from `src/services/positionCalculator.ts`; `rectLeft` and
`rectTop` stand for `containerInfo.rect.left` / `containerInfo.rect.top`. -/
structure ContainerInfo where
  rectLeft : ℚ
  rectTop : ℚ
  width : ℚ
  height : ℚ
  scrollLeft : ℚ
  scrollTop : ℚ
  deriving DecidableEq, Repr

/-- `calculateRectPosition(rect, containerInfo)` from
`src/services/positionCalculator.ts`: absolute coordinates relative to the
container and percentage fields rounded to 3 decimals. -/
def calculateRectPosition (rect : DomRect) (ci : ContainerInfo) : PreciseRect :=
  let x := rect.left - ci.rectLeft + ci.scrollLeft
  let y := rect.top - ci.rectTop + ci.scrollTop
  let width := rect.width
  let height := rect.height
  { x := x
    y := y
    width := width
    height := height
    xPercent := round3 (x / ci.width * 100)
    yPercent := round3 (y / ci.height * 100)
    wPercent := round3 (width / ci.width * 100)
    hPercent := round3 (height / ci.height * 100) }

/-- `calculatePrecisePosition(element, containerInfo)` from
`src/services/positionCalculator.ts`.  The element's
`getBoundingClientRect()` is the `DomRect` argument; the arithmetic is
identical to `calculateRectPosition`. -/
def calculatePrecisePosition (elementRect : DomRect) (ci : ContainerInfo) : PreciseRect :=
  let x := elementRect.left - ci.rectLeft + ci.scrollLeft
  let y := elementRect.top - ci.rectTop + ci.scrollTop
  let width := elementRect.width
  let height := elementRect.height
  { x := x
    y := y
    width := width
    height := height
    xPercent := round3 (x / ci.width * 100)
    yPercent := round3 (y / ci.height * 100)
    wPercent := round3 (width / ci.width * 100)
    hPercent := round3 (height / ci.height * 100) }

/-- `getPositionKey(rect)` from `src/services/positionCalculator.ts`: the
1px-granularity dedup fingerprint `"x,y,w,h"` built from `Math.round`ed
coordinates. -/
def getPositionKey (rect : PreciseRect) : String :=
  toString (jsRound rect.x) ++ "," ++ toString (jsRound rect.y) ++ ","
    ++ toString (jsRound rect.width) ++ "," ++ toString (jsRound rect.height)

/-- The element fields of the legacy `LayoutElement` produced by
`convertToLegacyFormat` in `src/services/layoutEngine.ts`: every variant
(text, image, shape) maps `x/y/w/h` from the item's percentage fields.  The
variant-specific payload fields are irrelevant to the page-structure claims
and are represented by the item id. -/
structure LayoutElement where
  id : ℕ
  x : ℚ
  y : ℚ
  w : ℚ
  h : ℚ
  deriving DecidableEq, Repr

/-- `convertToLegacyFormat(item)` from `src/services/layoutEngine.ts`,
restricted to the geometry common to all three variants. -/
def convertToLegacyFormat (item : LayoutItem) : LayoutElement :=
  { id := item.id
    x := item.position.xPercent
    y := item.position.yPercent
    w := item.position.wPercent
    h := item.position.hPercent }

/-- `PageLayout` as assembled by `extractLayoutEnhanced` in
`src/services/layoutEngine.ts`. -/
structure PageLayout where
  pageNumber : ℕ
  bgColor : String
  elements : List LayoutElement
  deriving DecidableEq, Repr

/-- The page-assembly step of `extractLayoutEnhanced`
(`src/services/layoutEngine.ts`, lines 211-224): map each `PageBreak` to a
`PageLayout` and synthesize a single empty page when pagination produced no
pages. -/
def assemblePages (pageBreaks : List PageBreak) : List PageLayout :=
  let pages := pageBreaks.enum.map (fun p =>
    { pageNumber := p.1 + 1
      bgColor := "#ffffff"
      elements := p.2.elements.map convertToLegacyFormat })
  if pages.length = 0 then
    [{ pageNumber := 1, bgColor := "#ffffff", elements := [] }]
  else pages

/-- `extractLayoutEnhanced` restricted to its page-structure computation: the
DOM walk result (`validElements`, container height, measured content height)
is paginated with `marginPx = 12` and assembled into pages. -/
def extractLayoutPages (validElements : List LayoutItem)
    (containerHeight contentHeight : ℚ)
    (forceSinglePage : Bool) (maxPages : Option ℕ) : List PageLayout :=
  assemblePages (paginateLayoutItems validElements
    { pageHeight := containerHeight
      maxPages := maxPages
      forceSinglePage := forceSinglePage
      contentHeight := some contentHeight
      marginPx := some 12 })

/-- `FONT_MAP` from `src/services/fontMapper.ts`: the curated table of common
family names mapped to portable equivalents. -/
def FONT_MAP : List (String × String) :=
  [("Inter", "Arial"),
   ("Roboto", "Arial"),
   ("Open Sans", "Arial"),
   ("Lato", "Arial"),
   ("Montserrat", "Arial"),
   ("Nunito", "Arial"),
   ("Poppins", "Arial"),
   ("Source Sans Pro", "Arial"),
   ("Ubuntu", "Arial"),
   ("Noto Sans", "Arial"),
   ("Raleway", "Arial"),
   ("Work Sans", "Arial"),
   ("Manrope", "Arial"),
   ("DM Sans", "Arial"),
   ("Plus Jakarta Sans", "Arial"),
   ("Outfit", "Arial"),
   ("Figtree", "Arial"),
   ("Geist", "Arial"),
   ("Helvetica Neue", "Helvetica"),
   ("SF Pro", "Arial"),
   ("SF Pro Display", "Arial"),
   ("SF Pro Text", "Arial"),
   ("system-ui", "Arial"),
   ("-apple-system", "Arial"),
   ("BlinkMacSystemFont", "Arial"),
   ("Segoe UI", "Arial"),
   ("Tahoma", "Arial"),
   ("Verdana", "Verdana"),
   ("Trebuchet MS", "Trebuchet MS"),
   ("Georgia", "Georgia"),
   ("Times New Roman", "Times New Roman"),
   ("Times", "Times New Roman"),
   ("Merriweather", "Georgia"),
   ("Playfair Display", "Georgia"),
   ("Lora", "Georgia"),
   ("Libre Baskerville", "Georgia"),
   ("Source Serif Pro", "Georgia"),
   ("Noto Serif", "Times New Roman"),
   ("PT Serif", "Times New Roman"),
   ("Crimson Text", "Georgia"),
   ("EB Garamond", "Georgia"),
   ("Cormorant", "Georgia"),
   ("Fira Code", "Courier New"),
   ("JetBrains Mono", "Courier New"),
   ("Monaco", "Courier New"),
   ("Consolas", "Consolas"),
   ("Source Code Pro", "Courier New"),
   ("IBM Plex Mono", "Courier New"),
   ("Roboto Mono", "Courier New"),
   ("Ubuntu Mono", "Courier New"),
   ("Inconsolata", "Courier New"),
   ("Hack", "Courier New"),
   ("Menlo", "Courier New"),
   ("monospace", "Courier New"),
   ("Bebas Neue", "Arial"),
   ("Oswald", "Arial"),
   ("Anton", "Arial"),
   ("Abril Fatface", "Georgia"),
   ("Lobster", "Arial"),
   ("Pacifico", "Arial"),
   ("Permanent Marker", "Arial"),
   ("Satisfy", "Arial"),
   ("Dancing Script", "Arial"),
   ("Great Vibes", "Arial")]

/-- `STANDARD_FONTS` from `src/services/fontMapper.ts`: the fixed portable
set that passes through unchanged and that the export encoders embed. -/
def STANDARD_FONTS : List String :=
  ["Arial", "Helvetica", "Verdana", "Trebuchet MS", "Georgia",
   "Times New Roman", "Courier New", "Consolas", "serif", "sans-serif"]

/-- Whether `pat` occurs as a contiguous sublist of the given list. -/
def listContainsSub (pat : List Char) : List Char → Bool
  | [] => pat.isEmpty
  | c :: rest => List.isPrefixOf pat (c :: rest) || listContainsSub pat rest

/-- `s.includes(pat)`: substring containment. -/
def containsSub (s pat : String) : Bool := listContainsSub pat.toList s.toList

/-- The three categories of `detectFontCategory`. -/
inductive FontCategory where
  | serif
  | sansSerif
  | monospace
  deriving DecidableEq, Repr

/-- `detectFontCategory(fontFamily)` from `src/services/fontMapper.ts`:
substring heuristics on the lower-cased family name. -/
def detectFontCategory (fontFamily : String) : FontCategory :=
  let lower := fontFamily.toLower
  if containsSub lower "mono" || containsSub lower "code" || containsSub lower "consol" then
    FontCategory.monospace
  else if containsSub lower "serif" && !containsSub lower "sans" then
    FontCategory.serif
  else if ["georgia", "times", "garamond", "baskerville", "palatino", "bodoni"].any
      (fun pat => containsSub lower pat) then
    FontCategory.serif
  else
    FontCategory.sansSerif

/-- `CATEGORY_DEFAULTS` from `src/services/fontMapper.ts`. -/
def categoryDefault : FontCategory → String
  | FontCategory.serif => "Georgia"
  | FontCategory.sansSerif => "Arial"
  | FontCategory.monospace => "Courier New"

/-- `f.trim().replace(/['"]/g, '')`: strip single and double quotes. -/
def stripQuotes (s : String) : String :=
  ⟨s.toList.filter (fun c => !(c == '\'' || c == '"'))⟩

/-- Own-key lookup in the `FONT_MAP` object literal (the table's own
properties only; the full JS property access, prototype chain included, is
`jsObjectGet`). -/
def lookupFont : List (String × String) → String → Option String
  | [], _ => none
  | p :: rest, f => if p.1 = f then some p.2 else lookupFont rest f

/-- The own property names of `Object.prototype`.  `FONT_MAP` is a plain
object literal, so `FONT_MAP[k]` reaches these inherited members (built-in
functions, and the `__proto__` accessor yielding an object) for each of
these keys even though they are not table entries — and every one of them is
truthy. -/
def OBJECT_PROTOTYPE_KEYS : List String :=
  ["constructor", "hasOwnProperty", "isPrototypeOf", "propertyIsEnumerable",
   "toLocaleString", "toString", "valueOf", "__defineGetter__",
   "__defineSetter__", "__lookupGetter__", "__lookupSetter__", "__proto__"]

/-- A runtime value produced by `mapToStandardFont`: either a string (the
declared return type) or a non-string member inherited from
`Object.prototype`, which the `: string` annotation fails to rule out at
runtime. -/
inductive FontResult where
  | str (value : String)
  | inherited (name : String)
  deriving DecidableEq, Repr

/-- JS property access `FONT_MAP[k]` on the object literal: the own entry
when the key is in the table, the inherited `Object.prototype` member when
the key names one, `undefined` (`none`) otherwise.  `some` coincides with
the JS truthiness test `if (FONT_MAP[font])`: the table's own values are
non-empty strings and every inherited member is a function or object. -/
def jsObjectGet (tbl : List (String × String)) (k : String) : Option FontResult :=
  match lookupFont tbl k with
  | some v => some (FontResult.str v)
  | none =>
    if k ∈ OBJECT_PROTOTYPE_KEYS then some (FontResult.inherited k) else none

/-- The `for (const font of fonts)` loop of `mapToStandardFont`: the first
font that is standard, or whose `FONT_MAP[font]` access is truthy (an own
table value or an inherited `Object.prototype` member), wins. -/
def findStandardFont : List String → Option FontResult
  | [] => none
  | f :: fs =>
    if f ∈ STANDARD_FONTS then some (FontResult.str f)
    else
      match jsObjectGet FONT_MAP f with
      | some r => some r
      | none => findStandardFont fs

/-- `mapToStandardFont(fontFamily)` from `src/services/fontMapper.ts`:
empty input maps to `"Arial"`; otherwise the comma-separated list is trimmed,
unquoted and filtered, the curated tables are consulted in order — including
the inherited `Object.prototype` members that the plain-object access
`FONT_MAP[font]` can return — and the category heuristics provide the
fallback. -/
def mapToStandardFont (fontFamily : String) : FontResult :=
  if fontFamily = "" then FontResult.str "Arial"
  else
    let fonts := ((fontFamily.splitOn ",").map (fun f => stripQuotes f.trim)).filter
      (fun f => f.length ≠ 0)
    match findStandardFont fonts with
    | some r => r
    | none =>
      FontResult.str (categoryDefault (detectFontCategory (fonts.headD "sans-serif")))

/-- Digit-string to number, as `parseInt(s, 10)` on an all-digit match. -/
def digitsToNat (ds : List Char) : ℕ :=
  ds.foldl (fun acc c => 10 * acc + (c.toNat - 48)) 0

/-- JS `parseFloat` on a string matched by `[\d.]+`: longest valid decimal
prefix, `none` when no digit is found (JS `NaN`). -/
def jsParseFloat (ds : List Char) : Option ℚ :=
  let intPart := (ds.span Char.isDigit).1
  let rest := (ds.span Char.isDigit).2
  let fracPart : List Char :=
    match rest with
    | '.' :: rest2 => (rest2.span Char.isDigit).1
    | _ => []
  if intPart.isEmpty ∧ fracPart.isEmpty then none
  else some ((digitsToNat intPart : ℚ) + (digitsToNat fracPart : ℚ) / (10 : ℚ) ^ fracPart.length)

/-- `Math.round` of a non-negative quantity, as a natural number. -/
def jsRoundNat (q : ℚ) : ℕ := (jsRound q).toNat

/-- Hexadecimal digit character (lowercase), as produced by
`Number.prototype.toString(16)`. -/
def hexDigitChar (n : ℕ) : Char :=
  if n < 10 then Char.ofNat (48 + n) else Char.ofNat (87 + n)

/-- Big-endian hex digits of `n`; the fuel argument only drives structural
recursion and is always sufficient at `n + 1`. -/
def natToHexAux : ℕ → ℕ → List Char
  | 0, _ => []
  | fuel + 1, n => if n = 0 then [] else natToHexAux fuel (n / 16) ++ [hexDigitChar (n % 16)]

/-- `n.toString(16)` for a natural number. -/
def natToHex (n : ℕ) : String :=
  if n = 0 then "0" else ⟨natToHexAux (n + 1) n⟩

/-- `s.padStart(2, '0')`. -/
def pad2 (s : String) : String :=
  if s.length < 2 then ⟨List.replicate (2 - s.length) '0'⟩ ++ s else s

/-- JS `\s` character class (modelled by Unicode whitespace). -/
def isSpaceJS (c : Char) : Bool := c.isWhitespace

/-- The `[\s,]` character class. -/
def isSpaceComma (c : Char) : Bool := isSpaceJS c || c == ','

/-- The `[\s,/]` character class. -/
def isSpaceCommaSlash (c : Char) : Bool := isSpaceComma c || c == '/'

/-- The `[\d.]` character class. -/
def isDigitDot (c : Char) : Bool := c.isDigit || c == '.'

/-- Captured groups of the colour regex
`rgba?\(\s*(\d+)[\s,]+(\d+)[\s,]+(\d+)(?:[\s,/]+([\d.]+))?\s*\)` from
`src/services/colorUtils.ts`. -/
structure RgbMatch where
  r : List Char
  g : List Char
  b : List Char
  alpha : Option (List Char)
  deriving DecidableEq, Repr

/-- `\s*\)`: skip whitespace and require a closing parenthesis. -/
def closeParen (cs : List Char) : Bool :=
  match cs.dropWhile isSpaceJS with
  | ')' :: _ => true
  | _ => false

/-- The body of the colour regex after `rgba?\(`.  All adjacent character
classes of the pattern are disjoint, so greedy matching is deterministic; the
only backtracking point is the optional alpha group, which falls back to the
empty match (`\s*\)` directly after the third number) when the group or the
tail after it fails — exactly the JS regex engine's behaviour on this
pattern. -/
def matchAfterParen (cs : List Char) : Option RgbMatch :=
  let cs1 := cs.dropWhile isSpaceJS
  let d1 := (cs1.span Char.isDigit).1
  let cs2 := (cs1.span Char.isDigit).2
  if d1.isEmpty then none else
  let s1 := (cs2.span isSpaceComma).1
  let cs3 := (cs2.span isSpaceComma).2
  if s1.isEmpty then none else
  let d2 := (cs3.span Char.isDigit).1
  let cs4 := (cs3.span Char.isDigit).2
  if d2.isEmpty then none else
  let s2 := (cs4.span isSpaceComma).1
  let cs5 := (cs4.span isSpaceComma).2
  if s2.isEmpty then none else
  let d3 := (cs5.span Char.isDigit).1
  let cs6 := (cs5.span Char.isDigit).2
  if d3.isEmpty then none else
  let sl := (cs6.span isSpaceCommaSlash).1
  let cs7 := (cs6.span isSpaceCommaSlash).2
  let alphaGroup : Option (List Char) :=
    if sl.isEmpty then none else
      let a1 := (cs7.span isDigitDot).1
      let cs8 := (cs7.span isDigitDot).2
      if a1.isEmpty then none else
      if closeParen cs8 then some a1 else none
  match alphaGroup with
  | some a1 => some ⟨d1, d2, d3, some a1⟩
  | none => if closeParen cs6 then some ⟨d1, d2, d3, none⟩ else none

/-- Attempt to match the colour regex at the start of `cs` (the literal
`rgb`, an optional `a`, then `(` and the body). -/
def matchRgbAt : List Char → Option RgbMatch
  | c1 :: c2 :: c3 :: rest =>
    if c1 = 'r' ∧ c2 = 'g' ∧ c3 = 'b' then
      match rest with
      | c4 :: rest2 =>
        if c4 = '(' then matchAfterParen rest2
        else if c4 = 'a' then
          match rest2 with
          | c5 :: rest3 => if c5 = '(' then matchAfterParen rest3 else none
          | [] => none
        else none
      | [] => none
    else none
  | _ => none

/-- Leftmost match of the colour regex: try every start position from the
left, as `String.prototype.match` does for an unanchored pattern. -/
def findRgbMatch : List Char → Option RgbMatch
  | [] => none
  | c :: rest =>
    match matchRgbAt (c :: rest) with
    | some m => some m
    | none => findRgbMatch rest

/-- `s.endsWith(suffix)`. -/
def strEndsWith (s suffix : String) : Bool :=
  List.isPrefixOf suffix.toList.reverse s.toList.reverse

/-- `rgbToHex(rgb)` from `src/services/colorUtils.ts`: `undefined` (here
`none`) for transparent/keyword inputs and unmatchable non-hex strings, hex
passthrough with the `#xxxxxxxx`-fully-transparent checks, and
`#rrggbb[aa]` construction from a matched `rgb()/rgba()` string. -/
def rgbToHex (rgb : String) : Option String :=
  if rgb = "" ∨ rgb = "transparent" ∨ rgb = "inherit" ∨ rgb = "initial" then none
  else
    match findRgbMatch rgb.toList with
    | some m =>
      let r := digitsToNat m.r
      let g := digitsToNat m.g
      let b := digitsToNat m.b
      let a : Option ℚ :=
        match m.alpha with
        | none => some 1
        | some ds => jsParseFloat ds
      if a = some 0 then none
      else
        let hex := "#" ++ pad2 (natToHex r) ++ pad2 (natToHex g) ++ pad2 (natToHex b)
        match a with
        | some q =>
          if q < 1 then some (hex ++ pad2 (natToHex (jsRoundNat (q * 255)))) else some hex
        | none => some hex
    | none =>
      match rgb.toList with
      | '#' :: _ =>
        if rgb.length = 9 ∧ strEndsWith rgb "00" then none
        else if rgb.length = 5 ∧ strEndsWith rgb "0" then none
        else some rgb
      | _ => none

/-- `StackingContext` from the stacking-context tracker: an element identity,
the resolved `zIndex` (0 for `auto`), the document-order counter assigned by
the build step, and the ordered child contexts. -/
inductive StackingContext where
  | mk (element : ℕ) (zIndex : ℤ) (order : ℕ) (children : List StackingContext)

/-- The element identity of a stacking context. -/
def StackingContext.element : StackingContext → ℕ
  | .mk e _ _ _ => e

/-- The z-index of a stacking context. -/
def StackingContext.zIndex : StackingContext → ℤ
  | .mk _ z _ _ => z

/-- The document-order counter of a stacking context. -/
def StackingContext.order : StackingContext → ℕ
  | .mk _ _ o _ => o

/-- The child contexts of a stacking context. -/
def StackingContext.children : StackingContext → List StackingContext
  | .mk _ _ _ cs => cs

/-- The comparator
`(a, b) => a.zIndex !== b.zIndex ? a.zIndex - b.zIndex : a.order - b.order`
of `getPaintOrder`, as the "comes not after" relation of the stable sort. -/
def ctxRel (a b : StackingContext) : Prop :=
  if a.zIndex ≠ b.zIndex then a.zIndex < b.zIndex else a.order ≤ b.order

instance : DecidableRel ctxRel := fun a b => by
  unfold ctxRel
  infer_instance

/-- `[...context.children].sort(...)` of `getPaintOrder`: stable sort of the
children by z-index then document order. -/
def sortChildren (cs : List StackingContext) : List StackingContext :=
  List.insertionSort ctxRel cs

/-- The visit order of the children of one context in `getPaintOrder`: the
sorted children filtered into the negative, zero and positive z-index groups,
in that sequence. -/
def orderedChildren (cs : List StackingContext) : List StackingContext :=
  (sortChildren cs).filter (fun c => decide (c.zIndex < 0))
    ++ (sortChildren cs).filter (fun c => decide (c.zIndex = 0))
    ++ (sortChildren cs).filter (fun c => decide (0 < c.zIndex))

/-- `getPaintOrder(root)` from the stacking-context tracker: emit the
context's own element, then recursively visit the negative, zero and positive
z-index child groups in sorted order. -/
def getPaintOrder : StackingContext → List ℕ
  | .mk e _z _o cs =>
    e :: ((orderedChildren cs).attach.map (fun c => getPaintOrder c.val)).flatten
termination_by ctx => sizeOf ctx
decreasing_by
  rename_i zi od cs
  have h1 : c.val ∈ cs := by
    have hp := c.property
    simp only [orderedChildren, List.mem_append] at hp
    rcases hp with (hp | hp) | hp <;>
      exact (List.mem_insertionSort ctxRel).mp (List.mem_filter.mp hp).1
  have h2 := List.sizeOf_lt_of_mem h1
  simp only [StackingContext.mk.sizeOf_spec]
  omega

/-- `text.replace(/\s+/g, ' ').trim()`: collapse whitespace runs to single
spaces and trim. -/
def normalizeWs (s : String) : String :=
  " ".intercalate ((s.split Char.isWhitespace).filter (fun w => w ≠ ""))

/-- Helper for `match(/\d+/g)`: collect the maximal digit runs of a string
(accumulator-based so the recursion is structural). -/
def digitRunsAux : List Char → List Char → List (List Char)
  | [], acc => if acc.isEmpty then [] else [acc.reverse]
  | c :: rest, acc =>
    if c.isDigit then digitRunsAux rest (c :: acc)
    else if acc.isEmpty then digitRunsAux rest []
    else acc.reverse :: digitRunsAux rest []

/-- `s.match(/\d+/g)`: the maximal digit runs of `s`, in order. -/
def digitRuns (s : String) : List (List Char) := digitRunsAux s.toList []

/-- The local `rgbToHex` of `src/services/textExtractor.ts`: defaults to
`'#000000'` instead of `undefined`, passes `#`-strings through, and encodes
the first three digit runs. -/
def textRgbToHex (rgb : String) : String :=
  if rgb = "" ∨ rgb = "rgba(0, 0, 0, 0)" ∨ rgb = "transparent" then "#000000"
  else
    match rgb.toList with
    | '#' :: _ => rgb
    | _ =>
      match digitRuns rgb with
      | r :: g :: b :: _ =>
        "#" ++ pad2 (natToHex (digitsToNat r)) ++ pad2 (natToHex (digitsToNat g))
          ++ pad2 (natToHex (digitsToNat b))
      | _ => "#000000"

/-- `getTextAlign(styles)` from `src/services/textExtractor.ts`. -/
def getTextAlign (textAlign : String) : String :=
  if textAlign = "center" then "center"
  else if textAlign = "right" ∨ textAlign = "end" then "right"
  else "left"

/-- `parseInt(s, 10)` on an arbitrary string: the leading digit run, `none`
for `NaN`. -/
def jsParseIntOpt (s : String) : Option ℕ :=
  let ds := (s.toList.span Char.isDigit).1
  if ds.isEmpty then none else some (digitsToNat ds)

/-- `v || d` on a JS number `v` modelled as `Option ℚ` (`none` = `NaN`):
falsy (`NaN` or `0`) falls back to the default. -/
def jsOrDefault (v : Option ℚ) (d : ℚ) : ℚ :=
  match v with
  | none => d
  | some q => if q = 0 then d else q

/-- `parseFloat(x) || undefined`: `none` when the parse is `NaN` or `0`. -/
def jsOrUndef (v : Option ℚ) : Option ℚ :=
  match v with
  | none => none
  | some q => if q = 0 then none else some q

/-- The computed-style snapshot read once per parent element by the text
extractor.  String-valued fields carry the raw CSS strings; `fontSizePx` and
`lineHeightPx` carry the `parseFloat` results of the corresponding computed
pixel strings (`none` for `NaN`), since CSS length parsing happens at the
rendering-host boundary. -/
structure ComputedStyle where
  display : String
  visibility : String
  color : String
  fontSizePx : Option ℚ
  fontWeight : String
  fontFamily : String
  textAlign : String
  lineHeightPx : Option ℚ
  deriving DecidableEq, Repr

/-- `TextElement` from `src/services/textExtractor.ts`.  `fontFamily` holds
the runtime result of `mapToStandardFont` (a string, or the inherited
`Object.prototype` member the mapper can leak for prototype-named
families). -/
structure TextElement where
  id : String
  text : String
  position : PreciseRect
  color : String
  fontSize : ℚ
  fontWeight : String
  fontFamily : FontResult
  align : String
  lineHeight : Option ℚ
  zIndex : ℤ
  deriving DecidableEq, Repr

/-- A text node handed to the extractor: its identity, its raw
`textContent`, and the client rects reported by a range selecting it. -/
structure TextNode where
  nid : ℕ
  textContent : String
  rects : List DomRect
  deriving DecidableEq, Repr

/-- `TextExtractionContext` from `src/services/textExtractor.ts`: the visited
node set, the pass-wide `positionMap` keyed by `PositionKey`, and the id
counter. -/
structure TextCtx where
  visited : List ℕ
  positionMap : List (String × TextElement)
  idCounter : ℕ
  deriving DecidableEq, Repr

/-- `positionMap.has(key)`. -/
def mapHas (m : List (String × TextElement)) (k : String) : Bool :=
  m.any (fun p => p.1 == k)

/-- `left/top/right/bottom` mins and maxes of the combined rect built in the
multi-rect branch of `extractTextLines`, with `width`/`height` recomputed
from the extremes.  An empty rect list would produce JS infinities; rationals
have no infinities, so that degenerate case yields the zero rect (the
deduplication behaviour under scrutiny is unaffected). -/
def combineRects : List DomRect → DomRect
  | [] => ⟨0, 0, 0, 0, 0, 0⟩
  | r :: rs =>
    let left := rs.foldl (fun m q => min m q.left) r.left
    let top := rs.foldl (fun m q => min m q.top) r.top
    let right := rs.foldl (fun m q => max m q.right) r.right
    let bottom := rs.foldl (fun m q => max m q.bottom) r.bottom
    ⟨left, top, right, bottom, right - left, bottom - top⟩

/-- The shared element-construction of `extractTextLines`: style fields read
from the parent's computed style, an id from the counter, the candidate
position. -/
def mkTextElement (ctx : TextCtx) (st : ComputedStyle) (zIndex : ℤ)
    (fullText : String) (position : PreciseRect) : TextElement :=
  { id := "text-" ++ toString (ctx.idCounter + 1)
    text := fullText
    position := position
    color := textRgbToHex st.color
    fontSize := jsOrDefault st.fontSizePx 14
    fontWeight :=
      if (match jsParseIntOpt st.fontWeight with
          | some w => decide (600 ≤ w)
          | none => false) || (st.fontWeight == "bold") then "bold" else "normal"
    fontFamily := mapToStandardFont st.fontFamily
    align := getTextAlign st.textAlign
    lineHeight := jsOrUndef st.lineHeightPx
    zIndex := zIndex }

/-- The dedup-guarded emission shared by both branches of the
`extractTextLines` loop: drop the candidate when its `PositionKey` is already
in the pass-wide map, otherwise store it and emit it. -/
def emitIfFresh (ctx : TextCtx) (st : ComputedStyle) (zIndex : ℤ)
    (fullText : String) (position : PreciseRect) : List TextElement × TextCtx :=
  let posKey := getPositionKey position
  if mapHas ctx.positionMap posKey then ([], ctx)
  else
    let el := mkTextElement ctx st zIndex fullText position
    ([el], { ctx with
              positionMap := ctx.positionMap ++ [(posKey, el)]
              idCounter := ctx.idCounter + 1 })

/-- The body of the `for (const node of textNodes)` loop of
`extractTextLines`: skip visited nodes, mark visited, skip empty text, then
either the single-rect branch (with the `< 0.5` size guard) or the multi-rect
combine branch, each ending in the dedup-guarded emission. -/
def processTextNode (ci : ContainerInfo) (st : ComputedStyle) (zIndex : ℤ)
    (ctx : TextCtx) (n : TextNode) : List TextElement × TextCtx :=
  if ctx.visited.contains n.nid then ([], ctx)
  else
    let ctx1 := { ctx with visited := n.nid :: ctx.visited }
    let fullText := normalizeWs n.textContent
    if fullText = "" then ([], ctx1)
    else
      match n.rects with
      | [rect] =>
        if rect.width < 1/2 ∨ rect.height < 1/2 then ([], ctx1)
        else emitIfFresh ctx1 st zIndex fullText (calculateRectPosition rect ci)
      | rects =>
        emitIfFresh ctx1 st zIndex fullText (calculateRectPosition (combineRects rects) ci)

/-- The loop of `extractTextLines` over the element's text nodes. -/
def extractTextLinesGo (ci : ContainerInfo) (st : ComputedStyle) (zIndex : ℤ) :
    List TextNode → TextCtx → List TextElement × TextCtx
  | [], ctx => ([], ctx)
  | n :: ns, ctx =>
    let step := processTextNode ci st zIndex ctx n
    let rest := extractTextLinesGo ci st zIndex ns step.2
    (step.1 ++ rest.1, rest.2)

/-- `extractTextLines(element, context, zIndex)` from
`src/services/textExtractor.ts`: invisible elements produce nothing;
otherwise the element's text nodes are processed in order against the
pass-wide context. -/
def extractTextLines (ci : ContainerInfo) (st : ComputedStyle) (zIndex : ℤ)
    (textNodes : List TextNode) (ctx : TextCtx) : List TextElement × TextCtx :=
  if st.display = "none" ∨ st.visibility = "hidden" then ([], ctx)
  else extractTextLinesGo ci st zIndex textNodes ctx

/-- Scenario A input (claim C1): three 100px-tall text items at tops 0, 300
and 600.  Percentage fields as produced by the position calculator for a
1280x800 virtual page. -/
def c1Items : List LayoutItem :=
  [⟨1, ⟨0, 0, 500, 100, 0, 0, 39063/1000, 25/2⟩⟩,
   ⟨2, ⟨0, 300, 500, 100, 0, 75/2, 39063/1000, 25/2⟩⟩,
   ⟨3, ⟨0, 600, 500, 100, 0, 75, 39063/1000, 25/2⟩⟩]

/-- Scenario A options (claim C1): multi-page mode, `pageHeight = 800`,
`marginPx = 12`. -/
def c1Opts : PaginationOptions := { pageHeight := 800, marginPx := some 12 }

/-- Item with top 1000 used for the single-page-scale threshold claim. -/
def c2Item : LayoutItem := ⟨7, ⟨40, 1000, 200, 120, 25/8, 125, 125/4, 15⟩⟩

/-- Items for the single-page witness: content height 1600 against page
height 800. -/
def c2Els : List LayoutItem :=
  [⟨1, ⟨0, 0, 640, 800, 0, 0, 50, 100⟩⟩, ⟨2, ⟨0, 800, 640, 800, 0, 100, 50, 100⟩⟩]

/-- Single item used to witness the pagination frame-effect claim. -/
def c3Items : List LayoutItem := [⟨5, ⟨10, 30, 60, 40, 10, 30, 60, 40⟩⟩]

/-- Options used to witness the pagination frame-effect claim. -/
def c3Opts : PaginationOptions := { pageHeight := 100, marginPx := some 8 }

/-- The element placed on the first page by `paginateLayoutItems c3Items
c3Opts` (top page, so only `yPercent` is recomputed). -/
def c3Adjusted : LayoutItem := ⟨5, ⟨10, 30, 60, 40, 10, 30/100*100, 60, 40⟩⟩

/-- Item whose paginated `yPercent` is not 3-decimal rounded: top 1 on a
3px-tall page gives the exact `100/3`. -/
def c9Item : LayoutItem := ⟨1, ⟨0, 1, 1, 1, 0, round3 (1/3*100), round3 (1/3*100), round3 (1/3*100)⟩⟩

/-- Options for the rounding-invariant counterexample. -/
def c9Opts : PaginationOptions := { pageHeight := 3, marginPx := some 0 }

/-- The item placed by `paginateLayoutItems [c9Item] c9Opts`: its rewritten
`yPercent` is the exact `100/3`, which no 3-decimal rounding can produce. -/
def c9Adjusted : LayoutItem :=
  ⟨1, ⟨0, 1, 1, 1, 0, 100/3, round3 (1/3*100), round3 (1/3*100)⟩⟩

/-- Two items used to witness the pagination partition claim. -/
def c10Items : List LayoutItem :=
  [⟨2, ⟨0, 90, 10, 30, 0, 90, 10, 30⟩⟩, ⟨1, ⟨0, 0, 10, 30, 0, 0, 10, 30⟩⟩]

/-- Options used to witness the pagination partition claim. -/
def c10Opts : PaginationOptions := { pageHeight := 100, maxPages := some 2, marginPx := some 8 }

/-- Concrete sibling contexts used to witness the paint-order claim: z-index
-1, 0 and 5, with a nested child under the z=5 sibling. -/
def c4Neg : StackingContext := .mk 11 (-1) 1 []

/-- The z-index 0 sibling of the paint-order witness. -/
def c4Zero : StackingContext := .mk 12 0 2 []

/-- The z-index 5 sibling of the paint-order witness, with one child. -/
def c4Pos : StackingContext := .mk 13 5 3 [.mk 14 0 4 []]

/-- Container info for the text-extraction witness (a 1280x800 page at the
origin, unscrolled). -/
def c5Ci : ContainerInfo := ⟨0, 0, 1280, 800, 0, 0⟩

/-- Computed style for the text-extraction witness. -/
def c5Style : ComputedStyle :=
  { display := "block"
    visibility := "visible"
    color := "rgb(17, 24, 39)"
    fontSizePx := some 16
    fontWeight := "700"
    fontFamily := "Inter, sans-serif"
    textAlign := "left"
    lineHeightPx := some 24 }

/-- Two text nodes occupying the same client rect: the second is a duplicate
of the first under the position key. -/
def c5Nodes : List TextNode :=
  [⟨100, "Hello  world", [⟨20, 40, 220, 60, 200, 20⟩]⟩,
   ⟨101, "Hello world", [⟨20, 40, 220, 60, 200, 20⟩]⟩]

/-- The item ids carried by a list of pages, in visit order. -/
def pagesIds (pages : List PageBreak) : List ℕ :=
  (pages.map (fun pb => pb.elements.map LayoutItem.id)).flatten

/-- The item ids represented by a pagination loop state: closed pages first,
then the elements of the page under construction. -/
def stateIds (s : PagState) : List ℕ :=
  pagesIds s.pages ++ s.currentElements.map LayoutItem.id

/-- The original absolute tops of the items on a list of pages: each stored
(page-relative) `y` shifted back by its page's `yPosition`. -/
def pagesTops (pages : List PageBreak) : List ℚ :=
  (pages.map (fun pb => pb.elements.map (fun e => e.position.y + pb.yPosition))).flatten

/-- The original absolute tops represented by a pagination loop state. -/
def stateTops (s : PagState) : List ℚ :=
  pagesTops s.pages ++ s.currentElements.map (fun e => e.position.y + s.currentStart)

/-- A placed item `e` is the untruncated page-relative copy of an input item
`e₀` on a page with top `pageTop`: identity, `x`, `width`, `height` and the
three untouched percentage fields agree, `y` is shifted by exactly the page
top, and `yPercent` is the exact page-relative percentage. -/
def adjustedFrom (pageHeight pageTop : ℚ) (e e₀ : LayoutItem) : Prop :=
  e.id = e₀.id ∧
  e.position.x = e₀.position.x ∧
  e.position.width = e₀.position.width ∧
  e.position.height = e₀.position.height ∧
  e.position.xPercent = e₀.position.xPercent ∧
  e.position.wPercent = e₀.position.wPercent ∧
  e.position.hPercent = e₀.position.hPercent ∧
  e.position.y = e₀.position.y - pageTop ∧
  e.position.yPercent = (e₀.position.y - pageTop) / pageHeight * 100

/-- Invariant of the pagination loop: every element already placed (on a
closed page or on the page under construction) is an untruncated adjusted
copy of some source item. -/
def pageInv (pageHeight : ℚ) (src : List LayoutItem) (s : PagState) : Prop :=
  (∀ pb ∈ s.pages, ∀ e ∈ pb.elements, ∃ e₀ ∈ src, adjustedFrom pageHeight pb.yPosition e e₀) ∧
  (∀ e ∈ s.currentElements, ∃ e₀ ∈ src, adjustedFrom pageHeight s.currentStart e e₀)
theorem pagStep_stateIds (o : PaginationOptions) (s : PagState) (el : LayoutItem) :
    stateIds (pagStep o s el) = stateIds s ++ [el.id] := by
  unfold pagStep
  dsimp only
  split
  · simp [stateIds, pagesIds, adjustItem]
  · simp [stateIds, pagesIds, adjustItem]

theorem pagStep_stateTops (o : PaginationOptions) (s : PagState) (el : LayoutItem) :
    stateTops (pagStep o s el) = stateTops s ++ [el.position.y] := by
  unfold pagStep
  dsimp only
  split
  · simp [stateTops, pagesTops, adjustItem]
  · simp [stateTops, pagesTops, adjustItem]

theorem foldl_pagStep_stateIds (o : PaginationOptions) (l : List LayoutItem) (s : PagState) :
    stateIds (l.foldl (pagStep o) s) = stateIds s ++ l.map LayoutItem.id := by
  induction l generalizing s with
  | nil => simp
  | cons x xs ih => simp [List.foldl_cons, ih, pagStep_stateIds]

theorem foldl_pagStep_stateTops (o : PaginationOptions) (l : List LayoutItem) (s : PagState) :
    stateTops (l.foldl (pagStep o) s) = stateTops s ++ l.map (fun e => e.position.y) := by
  induction l generalizing s with
  | nil => simp
  | cons x xs ih => simp [List.foldl_cons, ih, pagStep_stateTops]

theorem pagStep_pages_lt (o : PaginationOptions) (s : PagState) (el : LayoutItem)
    (m : ℕ) (hm : o.maxPages = some m) (h : s.pages.length < m) :
    (pagStep o s el).pages.length < m := by
  unfold pagStep
  dsimp only
  split
  · next hc =>
    simp only [hm, underCap, Bool.and_eq_true, decide_eq_true_eq] at hc
    simp
    omega
  · exact h

theorem foldl_pagStep_pages_lt (o : PaginationOptions) (l : List LayoutItem) (s : PagState)
    (m : ℕ) (hm : o.maxPages = some m) (h : s.pages.length < m) :
    (l.foldl (pagStep o) s).pages.length < m := by
  induction l generalizing s with
  | nil => exact h
  | cons x xs ih => exact ih _ (pagStep_pages_lt o s x m hm h)

theorem pagStep_pageInv (o : PaginationOptions) (src : List LayoutItem)
    (s : PagState) (el : LayoutItem) (hel : el ∈ src)
    (h : pageInv o.pageHeight src s) :
    pageInv o.pageHeight src (pagStep o s el) := by
  obtain ⟨h1, h2⟩ := h
  unfold pagStep
  dsimp only
  split
  · refine ⟨?_, ?_⟩
    · intro pb hpb e he
      rcases List.mem_append.mp hpb with hpb | hpb
      · exact h1 pb hpb e he
      · simp only [List.mem_singleton] at hpb
        subst hpb
        exact h2 e he
    · intro e he
      simp only [List.nil_append, List.mem_singleton] at he
      subst he
      exact ⟨el, hel, rfl, rfl, rfl, rfl, rfl, rfl, rfl, rfl, rfl⟩
  · refine ⟨h1, ?_⟩
    intro e he
    rcases List.mem_append.mp he with he | he
    · exact h2 e he
    · simp only [List.mem_singleton] at he
      subst he
      exact ⟨el, hel, rfl, rfl, rfl, rfl, rfl, rfl, rfl, rfl, rfl⟩

theorem foldl_pagStep_pageInv (o : PaginationOptions) (src : List LayoutItem) :
    ∀ (l : List LayoutItem) (s : PagState), (∀ x ∈ l, x ∈ src) →
      pageInv o.pageHeight src s →
      pageInv o.pageHeight src (l.foldl (pagStep o) s) := by
  intro l
  induction l with
  | nil => intro s _ h; exact h
  | cons x xs ih =>
    intro s hl h
    exact ih _ (fun y hy => hl y (List.mem_cons_of_mem x hy))
      (pagStep_pageInv o src s x (hl x (List.mem_cons_self x xs)) h)

theorem pagesIds_append (ps qs : List PageBreak) :
    pagesIds (ps ++ qs) = pagesIds ps ++ pagesIds qs := by
  simp [pagesIds]

theorem pagesIds_single (pb : PageBreak) :
    pagesIds [pb] = pb.elements.map LayoutItem.id := by
  simp [pagesIds]

theorem pagesTops_append (ps qs : List PageBreak) :
    pagesTops (ps ++ qs) = pagesTops ps ++ pagesTops qs := by
  simp [pagesTops]

theorem pagesTops_single (pb : PageBreak) :
    pagesTops [pb] = pb.elements.map (fun e => e.position.y + pb.yPosition) := by
  simp [pagesTops]

theorem paginate_flush (els : List LayoutItem) (o : PaginationOptions)
    (h : o.forceSinglePage = false)
    (hmax : o.maxPages = none ∨ ∃ m, o.maxPages = some m ∧ 1 ≤ m) :
    pagesIds (paginateLayoutItems els o)
        = stateIds (List.foldl (pagStep o) ⟨[], 0, []⟩ (List.insertionSort itemRel els)) ∧
    pagesTops (paginateLayoutItems els o)
        = stateTops (List.foldl (pagStep o) ⟨[], 0, []⟩ (List.insertionSort itemRel els)) := by
  have hunder : (List.foldl (pagStep o) ⟨[], 0, []⟩
      (List.insertionSort itemRel els)).currentElements ≠ [] →
      underCap o.maxPages (List.foldl (pagStep o) ⟨[], 0, []⟩
        (List.insertionSort itemRel els)).pages.length = true := by
    intro _
    rcases hmax with hm | ⟨m, hm, hm1⟩
    · simp [hm, underCap]
    · have hlt := foldl_pagStep_pages_lt o (List.insertionSort itemRel els) ⟨[], 0, []⟩ m hm
        (by simpa using hm1)
      simp [hm, underCap, hlt]
  unfold paginateLayoutItems
  rw [h]
  simp only [Bool.false_eq_true, if_false]
  set fin := List.foldl (pagStep o) ⟨[], 0, []⟩ (List.insertionSort itemRel els) with hfin
  by_cases hce : fin.currentElements = []
  · have : (!fin.currentElements.isEmpty && underCap o.maxPages fin.pages.length) = false := by
      simp [hce]
    rw [this]
    simp only [Bool.false_eq_true, if_false, stateIds, stateTops, hce]
    simp
  · have : (!fin.currentElements.isEmpty && underCap o.maxPages fin.pages.length) = true := by
      simp only [Bool.and_eq_true, Bool.not_eq_true', List.isEmpty_eq_false]
      exact ⟨hce, hunder hce⟩
    rw [this]
    simp only [if_true, pagesIds_append, pagesIds_single, pagesTops_append, pagesTops_single,
      stateIds, stateTops]
    exact ⟨trivial, trivial⟩

theorem paginate_ids (els : List LayoutItem) (o : PaginationOptions)
    (h : o.forceSinglePage = false)
    (hmax : o.maxPages = none ∨ ∃ m, o.maxPages = some m ∧ 1 ≤ m) :
    pagesIds (paginateLayoutItems els o)
      = (List.insertionSort itemRel els).map LayoutItem.id := by
  rw [(paginate_flush els o h hmax).1]
  have := foldl_pagStep_stateIds o (List.insertionSort itemRel els) ⟨[], 0, []⟩
  simpa [stateIds, pagesIds] using this

theorem paginate_tops (els : List LayoutItem) (o : PaginationOptions)
    (h : o.forceSinglePage = false)
    (hmax : o.maxPages = none ∨ ∃ m, o.maxPages = some m ∧ 1 ≤ m) :
    pagesTops (paginateLayoutItems els o)
      = (List.insertionSort itemRel els).map (fun e => e.position.y) := by
  rw [(paginate_flush els o h hmax).2]
  have := foldl_pagStep_stateTops o (List.insertionSort itemRel els) ⟨[], 0, []⟩
  simpa [stateTops, pagesTops] using this

theorem paginate_length_le (els : List LayoutItem) (o : PaginationOptions)
    (m : ℕ) (h : o.forceSinglePage = false) (hm : o.maxPages = some m) (hm1 : 1 ≤ m) :
    (paginateLayoutItems els o).length ≤ m := by
  unfold paginateLayoutItems
  rw [h]
  simp only [Bool.false_eq_true, if_false]
  have hlt := foldl_pagStep_pages_lt o (List.insertionSort itemRel els) ⟨[], 0, []⟩ m hm
    (by simpa using hm1)
  split
  · simpa using hlt
  · omega

theorem paginate_adjusted (els : List LayoutItem) (o : PaginationOptions)
    (h : o.forceSinglePage = false) :
    ∀ pb ∈ paginateLayoutItems els o, ∀ e ∈ pb.elements,
      ∃ e₀ ∈ els, adjustedFrom o.pageHeight pb.yPosition e e₀ := by
  have hinv := foldl_pagStep_pageInv o els (List.insertionSort itemRel els) ⟨[], 0, []⟩
    (fun x hx => (List.mem_insertionSort itemRel).mp hx)
    ⟨by intro pb hpb; simp at hpb, by intro e he; simp at he⟩
  intro pb hpb e he
  unfold paginateLayoutItems at hpb
  rw [h] at hpb
  simp only [Bool.false_eq_true, if_false] at hpb
  split at hpb
  · rcases List.mem_append.mp hpb with hpb | hpb
    · exact hinv.1 pb hpb e he
    · simp only [List.mem_singleton] at hpb
      subst hpb
      exact hinv.2 e he
  · exact hinv.1 pb hpb e he

/-- Claim C1 (corrected): with three 100px-tall items at tops 0, 300 and 600,
pageHeight 800 and marginPx 12, multi-page pagination does NOT return two
pages: the third item's bottom (700) does not exceed `0 + 800 - 12 = 788`,
so a single page is returned. -/
theorem c1_counterexample :
    (paginateLayoutItems c1Items c1Opts).length ≠ 2 ∧
    (paginateLayoutItems c1Items c1Opts).length = 1 := by
  with_unfolding_all decide
/-- Claim C1 (amended): the scenario yields exactly one page at top 0 holding
all three items in order, with each `y` unchanged and `yPercent` recomputed
against the 800px page. -/
theorem c1_amended :
    paginateLayoutItems c1Items c1Opts =
      [⟨0, [⟨1, ⟨0, 0, 500, 100, 0, 0, 39063/1000, 25/2⟩⟩,
            ⟨2, ⟨0, 300, 500, 100, 0, 75/2, 39063/1000, 25/2⟩⟩,
            ⟨3, ⟨0, 600, 500, 100, 0, 75, 39063/1000, 25/2⟩⟩]⟩] := by
  with_unfolding_all rfl
/-- Claim C2 (counterexample): content height 1001 exceeds page height 1000,
yet no scaling is applied (the scale `1000/1001 ≈ 0.999001` hits the
`>= 0.999` early return), so an item keeps its `y = 1000` instead of being
multiplied by the scale. -/
theorem c2_counterexample :
    (1000 : ℚ) < 1001 ∧
    scaleLayoutToSinglePage [c2Item] 1000 1001 = [c2Item] ∧
    c2Item.position.y * (1000/1001) ≠ c2Item.position.y := by
  refine ⟨by norm_num, by with_unfolding_all decide, by with_unfolding_all decide⟩
/-- Claim C2 (amended): when the single-page scale `pageHeight/contentHeight`
is below the 0.999 threshold, it is applied to every geometry field of every
item; the scale is ≤ 1, so no non-negative geometry field increases; and
single-page mode always emits exactly one page. -/
theorem c2_amended (els : List LayoutItem) (ph ch : ℚ)
    (h0 : 0 < ph) (h1 : ph < ch) (h2 : ph/ch < 999/1000) :
    scaleLayoutToSinglePage els ph ch = els.map (scaleItem (ph/ch)) ∧
    ph/ch ≤ 1 ∧
    (∀ el ∈ els,
      (0 ≤ el.position.x → (scaleItem (ph/ch) el).position.x ≤ el.position.x) ∧
      (0 ≤ el.position.y → (scaleItem (ph/ch) el).position.y ≤ el.position.y) ∧
      (0 ≤ el.position.width → (scaleItem (ph/ch) el).position.width ≤ el.position.width) ∧
      (0 ≤ el.position.height → (scaleItem (ph/ch) el).position.height ≤ el.position.height) ∧
      (0 ≤ el.position.xPercent → (scaleItem (ph/ch) el).position.xPercent ≤ el.position.xPercent) ∧
      (0 ≤ el.position.yPercent → (scaleItem (ph/ch) el).position.yPercent ≤ el.position.yPercent) ∧
      (0 ≤ el.position.wPercent → (scaleItem (ph/ch) el).position.wPercent ≤ el.position.wPercent) ∧
      (0 ≤ el.position.hPercent → (scaleItem (ph/ch) el).position.hPercent ≤ el.position.hPercent)) ∧
    (∀ o : PaginationOptions, o.forceSinglePage = true →
      (paginateLayoutItems els o).length = 1) := by
  have hch : 0 < ch := lt_trans h0 h1
  have hscale0 : 0 ≤ ph/ch := le_of_lt (div_pos h0 hch)
  have hscale1 : ph/ch ≤ 1 := le_of_lt ((div_lt_one hch).mpr h1)
  refine ⟨?_, hscale1, ?_, ?_⟩
  · unfold scaleLayoutToSinglePage
    rw [if_neg (by push_neg; constructor <;> linarith)]
    dsimp only
    rw [if_pos h1, if_neg (by linarith)]
  · intro el _
    refine ⟨?_, ?_, ?_, ?_, ?_, ?_, ?_, ?_⟩ <;>
      { intro hq
        simp only [scaleItem]
        exact mul_le_of_le_one_right hq hscale1 }
  · intro o ho
    unfold paginateLayoutItems
    rw [ho]
    simp
/-- Claim C2 witness: page height 800 against content height 1600 (scale
1/2): the scaling map is applied. -/
theorem c2_amended_witness :
    (0:ℚ) < 800 ∧ (800:ℚ) < 1600 ∧
    scaleLayoutToSinglePage c2Els 800 1600 = c2Els.map (scaleItem (800/1600)) :=
  ⟨by norm_num, by norm_num,
    (c2_amended c2Els 800 1600 (by norm_num) (by norm_num) (by norm_num)).1⟩
/-- Claim C3: in multi-page mode every placed item is an untruncated copy of
an input item: identity, `x`, `width`, `height`, `xPercent`, `wPercent` and
`hPercent` unchanged, `y` shifted by exactly the page's top offset, and
`yPercent` the exact page-relative percentage of the shifted top. -/
theorem paginate_no_truncation (els : List LayoutItem) (o : PaginationOptions)
    (h : o.forceSinglePage = false) :
    ∀ pb ∈ paginateLayoutItems els o, ∀ e ∈ pb.elements,
      ∃ e₀ ∈ els, adjustedFrom o.pageHeight pb.yPosition e e₀ :=
  paginate_adjusted els o h
/-- Claim C3 witness: the single item of `c3Items` is placed on the first
page untruncated. -/
theorem paginate_no_truncation_witness :
    ∃ e₀ ∈ c3Items, adjustedFrom c3Opts.pageHeight (0:ℚ) c3Adjusted e₀ :=
  paginate_no_truncation c3Items c3Opts rfl ⟨0, [c3Adjusted]⟩
    (by
      have h : paginateLayoutItems c3Items c3Opts = [⟨0, [c3Adjusted]⟩] := by
        with_unfolding_all rfl
      rw [h]
      exact List.mem_singleton_self _)
    c3Adjusted (List.mem_singleton_self _)
/-- Claim C9 (counterexample): multi-page pagination rewrites `yPercent`
without the 3-decimal rounding: an item with top 1 on a 3px page gets
`yPercent = 100/3`, which is not equal to `round3` of itself. -/
theorem c9_counterexample :
    paginateLayoutItems [c9Item] c9Opts = [⟨0, [c9Adjusted]⟩] ∧
    c9Adjusted.position.yPercent
      ≠ round3 (c9Adjusted.position.y / c9Opts.pageHeight * 100) := by
  refine ⟨by with_unfolding_all rfl, by with_unfolding_all decide⟩
/-- Claim C9 (amended): position calculation produces percentage fields that
are `absolute / pageDimension * 100` rounded to 3 decimals; multi-page
pagination instead stores the exact, unrounded page-relative `yPercent =
y / pageHeight * 100` (consistent with the rewritten `y` but not
re-rounded). -/
theorem percent_invariant_amended :
    (∀ (er : DomRect) (ci : ContainerInfo),
      (calculatePrecisePosition er ci).xPercent
          = round3 ((calculatePrecisePosition er ci).x / ci.width * 100) ∧
      (calculatePrecisePosition er ci).yPercent
          = round3 ((calculatePrecisePosition er ci).y / ci.height * 100) ∧
      (calculatePrecisePosition er ci).wPercent
          = round3 ((calculatePrecisePosition er ci).width / ci.width * 100) ∧
      (calculatePrecisePosition er ci).hPercent
          = round3 ((calculatePrecisePosition er ci).height / ci.height * 100)) ∧
    (∀ (els : List LayoutItem) (o : PaginationOptions), o.forceSinglePage = false →
      ∀ pb ∈ paginateLayoutItems els o, ∀ e ∈ pb.elements,
        e.position.yPercent = e.position.y / o.pageHeight * 100) := by
  constructor
  · intro er ci
    exact ⟨rfl, rfl, rfl, rfl⟩
  · intro els o h pb hpb e he
    obtain ⟨e₀, _, hrel⟩ := paginate_adjusted els o h pb hpb e he
    rw [hrel.2.2.2.2.2.2.2.2, hrel.2.2.2.2.2.2.2.1]
/-- Claim C9 witness: the item paginated in the counterexample scenario has
its `yPercent` equal to the exact page-relative percentage. -/
theorem percent_invariant_amended_witness :
    c9Adjusted.position.yPercent = c9Adjusted.position.y / c9Opts.pageHeight * 100 :=
  percent_invariant_amended.2 [c9Item] c9Opts rfl ⟨0, [c9Adjusted]⟩
    (by
      have h : paginateLayoutItems [c9Item] c9Opts = [⟨0, [c9Adjusted]⟩] := by
        with_unfolding_all rfl
      rw [h]
      exact List.mem_singleton_self _)
    c9Adjusted (List.mem_singleton_self _)
/-- Claim C10: multi-page pagination with an unset cap or a cap of at least
one page partitions its input (the ids on the pages are a permutation of the
input ids), orders elements within and across pages by ascending original
absolute top, and never exceeds the page cap. -/
theorem paginate_partition (els : List LayoutItem) (o : PaginationOptions)
    (h : o.forceSinglePage = false)
    (hmax : o.maxPages = none ∨ ∃ m, o.maxPages = some m ∧ 1 ≤ m) :
    (pagesIds (paginateLayoutItems els o)).Perm (els.map LayoutItem.id) ∧
    List.Pairwise (· ≤ ·) (pagesTops (paginateLayoutItems els o)) ∧
    (∀ m, o.maxPages = some m → (paginateLayoutItems els o).length ≤ m) := by
  refine ⟨?_, ?_, ?_⟩
  · rw [paginate_ids els o h hmax]
    exact (List.perm_insertionSort itemRel els).map LayoutItem.id
  · rw [paginate_tops els o h hmax]
    have hs := List.sorted_insertionSort itemRel els
    exact List.Pairwise.map _ (fun a b hab => hab) hs
  · intro m hm
    rcases hmax with hmx | ⟨m', hm', hm1⟩
    · rw [hmx] at hm
      exact absurd hm (by simp)
    · rw [hm'] at hm
      injection hm with hmm
      subst hmm
      exact paginate_length_le els o m' h hm' hm1
/-- Claim C10 witness: two items on a 100px page with cap 2 are partitioned
with ids permuting the input ids. -/
theorem paginate_partition_witness :
    (pagesIds (paginateLayoutItems c10Items c10Opts)).Perm (c10Items.map LayoutItem.id) :=
  (paginate_partition c10Items c10Opts rfl (Or.inr ⟨2, rfl, by norm_num⟩)).1

/-- Claim C8: the assembled page list of an extraction pass is never empty:
a single empty page is synthesized when pagination produces no pages. -/
theorem extractLayoutPages_ne_nil (validElements : List LayoutItem)
    (containerHeight contentHeight : ℚ) (fsp : Bool) (mp : Option ℕ) :
    extractLayoutPages validElements containerHeight contentHeight fsp mp ≠ [] := by
  unfold extractLayoutPages assemblePages
  dsimp only
  split
  · simp
  · next h =>
    intro hc
    rw [hc] at h
    simp at h

theorem lookupFont_mem (tbl : List (String × String)) (f v : String)
    (h : lookupFont tbl f = some v) : ∃ k, (k, v) ∈ tbl := by
  induction tbl with
  | nil => simp [lookupFont] at h
  | cons p rest ih =>
    unfold lookupFont at h
    split at h
    · injection h with hv
      subst hv
      exact ⟨p.1, List.mem_cons_self _ _⟩
    · obtain ⟨k, hk⟩ := ih h
      exact ⟨k, List.mem_cons_of_mem _ hk⟩

theorem fontMap_values_portable : ∀ p ∈ FONT_MAP, p.2 ∈ STANDARD_FONTS := by
  decide

theorem jsObjectGet_str (tbl : List (String × String)) (k v : String)
    (h : jsObjectGet tbl k = some (FontResult.str v)) : ∃ key, (key, v) ∈ tbl := by
  unfold jsObjectGet at h
  cases hlf : lookupFont tbl k with
  | some v' =>
    rw [hlf] at h
    injection h with h2
    injection h2 with h3
    rw [← h3]
    exact lookupFont_mem tbl k v' hlf
  | none =>
    rw [hlf] at h
    split at h <;> simp_all

theorem findStandardFont_str (fonts : List String) (v : String)
    (h : findStandardFont fonts = some (FontResult.str v)) : v ∈ STANDARD_FONTS := by
  induction fonts with
  | nil => simp [findStandardFont] at h
  | cons f fs ih =>
    unfold findStandardFont at h
    split at h
    · next hmem =>
      injection h with h2
      injection h2 with h3
      subst h3
      exact hmem
    · revert h
      split
      · next r hr =>
        intro h
        injection h with h2
        subst h2
        obtain ⟨key, hk⟩ := jsObjectGet_str FONT_MAP f v hr
        exact fontMap_values_portable (key, v) hk
      · exact ih

theorem findStandardFont_no_proto (fonts : List String)
    (hf : ∀ f ∈ fonts, f ∉ OBJECT_PROTOTYPE_KEYS) :
    findStandardFont fonts = none ∨
      ∃ v, findStandardFont fonts = some (FontResult.str v) := by
  induction fonts with
  | nil => exact Or.inl rfl
  | cons f fs ih =>
    unfold findStandardFont
    split
    · exact Or.inr ⟨f, rfl⟩
    · cases hjs : jsObjectGet FONT_MAP f with
      | some r =>
        show some r = none ∨ ∃ v, some r = some (FontResult.str v)
        unfold jsObjectGet at hjs
        cases hlf : lookupFont FONT_MAP f with
        | some v =>
          rw [hlf] at hjs
          injection hjs with h2
          rw [← h2]
          exact Or.inr ⟨v, rfl⟩
        | none =>
          rw [hlf] at hjs
          rw [if_neg (hf f (List.mem_cons_self f fs))] at hjs
          exact absurd hjs (by simp)
      | none =>
        show findStandardFont fs = none ∨ ∃ v, findStandardFont fs = some (FontResult.str v)
        exact ih (fun x hx => hf x (List.mem_cons_of_mem f hx))

/-- The mapper's intended totality, which holds exactly when no listed family
name collides with an inherited `Object.prototype` property: such inputs
always map to a string in the fixed portable set. -/
theorem mapToStandardFont_portable_no_proto (s : String)
    (hs : ∀ f ∈ ((s.splitOn ",").map (fun f => stripQuotes f.trim)).filter
      (fun f => f.length ≠ 0), f ∉ OBJECT_PROTOTYPE_KEYS) :
    ∃ v, mapToStandardFont s = FontResult.str v ∧ v ∈ STANDARD_FONTS := by
  unfold mapToStandardFont
  split
  · exact ⟨"Arial", rfl, by decide⟩
  · dsimp only
    rcases findStandardFont_no_proto _ hs with hn | ⟨v, hv⟩
    · rw [hn]
      refine ⟨_, rfl, ?_⟩
      cases detectFontCategory
        ((((s.splitOn ",").map (fun f => stripQuotes f.trim)).filter
          (fun f => f.length ≠ 0)).headD "sans-serif") <;> decide
    · rw [hv]
      exact ⟨v, rfl, findStandardFont_str _ v hv⟩

/-- Claim C6 (code bug): `FONT_MAP[font]` is a plain-object property access,
so the family name `"constructor"` reaches the inherited, truthy
`Object.prototype.constructor` and `mapToStandardFont` returns that
non-string member rather than any member of `STANDARD_FONTS` — contradicting
the function's own `: string` declaration and its documented purpose of
always mapping to a standard web-safe font. -/
theorem mapToStandardFont_constructor_leak :
    mapToStandardFont "constructor" = FontResult.inherited "constructor" ∧
    ∀ v : String, mapToStandardFont "constructor" ≠ FontResult.str v := by
  have heval : mapToStandardFont "constructor" = FontResult.inherited "constructor" := by
    with_unfolding_all rfl
  refine ⟨heval, ?_⟩
  intro v h
  rw [heval] at h
  exact FontResult.noConfusion h

/-- Unfolding equation for `getPaintOrder` without the `attach` wrapper used
for the termination argument. -/
theorem getPaintOrder_mk (e : ℕ) (z : ℤ) (o : ℕ) (cs : List StackingContext) :
    getPaintOrder (.mk e z o cs) = e :: ((orderedChildren cs).map getPaintOrder).flatten := by
  simp only [getPaintOrder]
  congr 1
  exact congrArg List.flatten (List.attach_map_val (orderedChildren cs) getPaintOrder)

/-- Claim C4: for a context with three sibling children of z-index -1, 0 and
5 (declared in any order), the sorted-and-partitioned visit order is always
`[a, b, c]` (ascending z-order), and the flattened paint order visits the
parent element, then the z=-1 subtree, then the z=0 subtree, then the z=5
subtree. -/
theorem paint_order_three_siblings (e : ℕ) (z : ℤ) (o : ℕ)
    (a b c : StackingContext) (l : List StackingContext)
    (ha : a.zIndex = -1) (hb : b.zIndex = 0) (hc : c.zIndex = 5)
    (hl : l = [a, b, c] ∨ l = [a, c, b] ∨ l = [b, a, c] ∨
          l = [b, c, a] ∨ l = [c, a, b] ∨ l = [c, b, a]) :
    orderedChildren l = [a, b, c] ∧
    getPaintOrder (.mk e z o l)
      = e :: (getPaintOrder a ++ getPaintOrder b ++ getPaintOrder c) := by
  have hsort : orderedChildren l = [a, b, c] := by
    rcases hl with h | h | h | h | h | h <;> subst h <;>
      simp [orderedChildren, sortChildren, List.insertionSort, List.orderedInsert,
        ctxRel, ha, hb, hc]
  refine ⟨hsort, ?_⟩
  rw [getPaintOrder_mk, hsort]
  simp

/-- Claim C4 witness: concrete siblings with z-index -1, 0 and 5 declared in
the order 5, -1, 0. -/
theorem paint_order_three_siblings_witness :
    orderedChildren [c4Pos, c4Neg, c4Zero] = [c4Neg, c4Zero, c4Pos] ∧
    getPaintOrder (.mk 10 0 0 [c4Pos, c4Neg, c4Zero])
      = 10 :: (getPaintOrder c4Neg ++ getPaintOrder c4Zero ++ getPaintOrder c4Pos) :=
  paint_order_three_siblings 10 0 0 c4Neg c4Zero c4Pos [c4Pos, c4Neg, c4Zero]
    rfl rfl rfl (Or.inr (Or.inr (Or.inr (Or.inr (Or.inl rfl)))))

theorem mapHas_append (m : List (String × TextElement)) (k k' : String) (el : TextElement) :
    mapHas (m ++ [(k, el)]) k' = (mapHas m k' || (k == k')) := by
  simp [mapHas]

theorem emitIfFresh_spec (ctx : TextCtx) (st : ComputedStyle) (z : ℤ)
    (t : String) (pos : PreciseRect) :
    (emitIfFresh ctx st z t pos = ([], ctx) ∧ mapHas ctx.positionMap (getPositionKey pos) = true) ∨
    (∃ el : TextElement,
      (emitIfFresh ctx st z t pos).1 = [el] ∧
      el.position = pos ∧
      mapHas ctx.positionMap (getPositionKey pos) = false ∧
      (emitIfFresh ctx st z t pos).2.positionMap
        = ctx.positionMap ++ [(getPositionKey pos, el)]) := by
  unfold emitIfFresh
  dsimp only
  split
  · next h => exact Or.inl ⟨rfl, h⟩
  · next h =>
    exact Or.inr ⟨mkTextElement ctx st z t pos, rfl, rfl, Bool.eq_false_iff.mpr h, rfl⟩

theorem processTextNode_spec (ci : ContainerInfo) (st : ComputedStyle) (z : ℤ)
    (ctx : TextCtx) (n : TextNode) :
    ((processTextNode ci st z ctx n).1 = [] ∧
      (processTextNode ci st z ctx n).2.positionMap = ctx.positionMap) ∨
    (∃ el : TextElement,
      (processTextNode ci st z ctx n).1 = [el] ∧
      mapHas ctx.positionMap (getPositionKey el.position) = false ∧
      (processTextNode ci st z ctx n).2.positionMap
        = ctx.positionMap ++ [(getPositionKey el.position, el)]) := by
  unfold processTextNode
  dsimp only
  split
  · exact Or.inl ⟨rfl, rfl⟩
  · split
    · exact Or.inl ⟨rfl, rfl⟩
    · split
      · split
        · exact Or.inl ⟨rfl, rfl⟩
        · rcases emitIfFresh_spec { ctx with visited := n.nid :: ctx.visited } st z
            (normalizeWs n.textContent) (calculateRectPosition _ ci) with ⟨h1, _⟩ | ⟨el, h1, h2, h3, h4⟩
          · left
            constructor
            · rw [h1]
            · rw [h1]
          · right
            refine ⟨el, h1, ?_, ?_⟩
            · rw [h2]
              exact h3
            · rw [h2]
              exact h4
      · rcases emitIfFresh_spec { ctx with visited := n.nid :: ctx.visited } st z
          (normalizeWs n.textContent) (calculateRectPosition _ ci) with ⟨h1, _⟩ | ⟨el, h1, h2, h3, h4⟩
        · left
          constructor
          · rw [h1]
          · rw [h1]
        · right
          refine ⟨el, h1, ?_, ?_⟩
          · rw [h2]
            exact h3
          · rw [h2]
            exact h4

theorem extractTextLinesGo_spec (ci : ContainerInfo) (st : ComputedStyle) (z : ℤ) :
    ∀ (nodes : List TextNode) (ctx : TextCtx),
      ((extractTextLinesGo ci st z nodes ctx).1.map (fun t => getPositionKey t.position)).Nodup ∧
      (∀ t ∈ (extractTextLinesGo ci st z nodes ctx).1,
        mapHas (extractTextLinesGo ci st z nodes ctx).2.positionMap
          (getPositionKey t.position) = true) ∧
      (∀ k, mapHas ctx.positionMap k = true →
        mapHas (extractTextLinesGo ci st z nodes ctx).2.positionMap k = true) ∧
      (∀ t ∈ (extractTextLinesGo ci st z nodes ctx).1,
        mapHas ctx.positionMap (getPositionKey t.position) = false) := by
  intro nodes
  induction nodes with
  | nil =>
    intro ctx
    simp [extractTextLinesGo]
  | cons n ns ih =>
    intro ctx
    have hstep := processTextNode_spec ci st z ctx n
    obtain ⟨hn1, hn2, hn3, hn4⟩ := ih (processTextNode ci st z ctx n).2
    simp only [extractTextLinesGo]
    rcases hstep with ⟨hs1, hs2⟩ | ⟨el, hs1, hs2, hs3⟩
    · rw [hs1]
      simp only [List.nil_append]
      refine ⟨hn1, hn2, ?_, ?_⟩
      · intro k hk
        exact hn3 k (by rw [hs2]; exact hk)
      · intro t ht
        have := hn4 t ht
        rw [hs2] at this
        exact this
    · rw [hs1]
      have hkey : mapHas (processTextNode ci st z ctx n).2.positionMap
          (getPositionKey el.position) = true := by
        rw [hs3, mapHas_append]
        simp
      refine ⟨?_, ?_, ?_, ?_⟩
      · simp only [List.map_cons, List.singleton_append, List.nodup_cons]
        constructor
        · intro hmem
          obtain ⟨t, ht, hkt⟩ := List.mem_map.mp hmem
          have hf := hn4 t ht
          rw [hkt] at hf
          rw [hf] at hkey
          exact Bool.false_ne_true hkey
        · exact hn1
      · intro t ht
        rcases List.mem_append.mp ht with ht | ht
        · simp only [List.mem_singleton] at ht
          subst ht
          exact hn3 _ hkey
        · exact hn2 t ht
      · intro k hk
        refine hn3 k ?_
        rw [hs3, mapHas_append, hk]
        simp
      · intro t ht
        rcases List.mem_append.mp ht with ht | ht
        · simp only [List.mem_singleton] at ht
          subst ht
          exact hs2
        · have hf := hn4 t ht
          rw [hs3, mapHas_append] at hf
          exact (Bool.or_eq_false_iff.mp hf).1

/-- Claim C5: within one extraction pass, the `TextRun`s emitted by
`extractTextLines` have pairwise distinct `PositionKey`s, and none of them
collides with a key already recorded in the pass-wide position map (so
distinctness also holds across successive calls sharing one context). -/
theorem extractTextLines_nodup_keys (ci : ContainerInfo) (st : ComputedStyle) (z : ℤ)
    (nodes : List TextNode) (ctx : TextCtx) :
    ((extractTextLines ci st z nodes ctx).1.map (fun t => getPositionKey t.position)).Nodup ∧
    (extractTextLines ci st z nodes ctx).1.all
      (fun t => !mapHas ctx.positionMap (getPositionKey t.position)) = true := by
  unfold extractTextLines
  split
  · simp
  · obtain ⟨h1, _, _, h4⟩ := extractTextLinesGo_spec ci st z nodes ctx
    refine ⟨h1, ?_⟩
    rw [List.all_eq_true]
    intro t ht
    rw [Bool.not_eq_true']
    exact h4 t ht

/-- Claim C5 witness: two text nodes sharing one client rect produce exactly
one emitted run (the duplicate is dropped), with trivially distinct keys. -/
theorem extractTextLines_nodup_keys_witness :
    (extractTextLines c5Ci c5Style 3 c5Nodes ⟨[], [], 0⟩).1.length = 1 ∧
    ((extractTextLines c5Ci c5Style 3 c5Nodes ⟨[], [], 0⟩).1.map
      (fun t => getPositionKey t.position)).Nodup :=
  ⟨by with_unfolding_all decide,
    (extractTextLines_nodup_keys c5Ci c5Style 3 c5Nodes ⟨[], [], 0⟩).1⟩

theorem hexDigitChar_ne_paren (k : ℕ) (hk : k < 16) : hexDigitChar k ≠ '(' := by
  interval_cases k <;> decide

theorem natToHexAux_ne_paren (fuel n : ℕ) : '(' ∉ natToHexAux fuel n := by
  induction fuel generalizing n with
  | zero => simp [natToHexAux]
  | succ f ih =>
    unfold natToHexAux
    split
    · simp
    · intro hmem
      rcases List.mem_append.mp hmem with hmem | hmem
      · exact ih (n / 16) hmem
      · simp only [List.mem_singleton] at hmem
        exact hexDigitChar_ne_paren (n % 16) (Nat.mod_lt n (by norm_num)) hmem.symm

theorem natToHex_ne_paren (n : ℕ) : '(' ∉ (natToHex n).data := by
  unfold natToHex
  split
  · decide
  · exact natToHexAux_ne_paren (n + 1) n

theorem pad2_ne_paren (s : String) (hs : '(' ∉ s.data) : '(' ∉ (pad2 s).data := by
  unfold pad2
  split
  · rw [String.data_append]
    intro hmem
    rcases List.mem_append.mp hmem with hmem | hmem
    · have := List.eq_of_mem_replicate hmem
      exact absurd this (by decide)
    · exact hs hmem
  · exact hs

theorem pad2_length (s : String) : 2 ≤ (pad2 s).length ∨ (pad2 s).length = 2 := by
  unfold pad2
  split
  · next h =>
    right
    show ((⟨List.replicate (2 - s.length) '0'⟩ : String) ++ s).data.length = 2
    rw [String.data_append]
    simp only [List.length_append, List.length_replicate]
    have : s.length = s.data.length := rfl
    omega
  · next h => left; omega

theorem pad2_length_ge (s : String) : 2 ≤ (pad2 s).length := by
  rcases pad2_length s with h | h <;> omega

theorem matchRgbAt_none {cs : List Char} (h : '(' ∉ cs) : matchRgbAt cs = none := by
  rcases cs with _ | ⟨c1, _ | ⟨c2, _ | ⟨c3, rest⟩⟩⟩
  · rfl
  · rfl
  · rfl
  · simp only [matchRgbAt]
    by_cases h123 : c1 = 'r' ∧ c2 = 'g' ∧ c3 = 'b'
    · rw [if_pos h123]
      rcases rest with _ | ⟨c4, rest2⟩
      · rfl
      · dsimp only
        have h4 : c4 ≠ '(' := by
          intro he
          exact h (by simp [he])
        rw [if_neg h4]
        by_cases ha : c4 = 'a'
        · rw [if_pos ha]
          rcases rest2 with _ | ⟨c5, rest3⟩
          · rfl
          · dsimp only
            have h5 : c5 ≠ '(' := by
              intro he
              exact h (by simp [he])
            rw [if_neg h5]
        · rw [if_neg ha]
    · rw [if_neg h123]

theorem findRgbMatch_none {cs : List Char} (h : '(' ∉ cs) : findRgbMatch cs = none := by
  induction cs with
  | nil => rfl
  | cons c rest ih =>
    unfold findRgbMatch
    rw [matchRgbAt_none h]
    exact ih (fun hm => h (List.mem_cons_of_mem c hm))

theorem ne_keyword_of_hash {v : String} {t : List Char} (hv : v.data = '#' :: t) :
    ¬(v = "" ∨ v = "transparent" ∨ v = "inherit" ∨ v = "initial") := by
  intro h
  rcases h with h | h | h | h <;>
    (subst h;
     have h2 := congrArg List.head? hv;
     simp only [List.head?_cons] at h2;
     exact absurd h2 (by decide))

theorem rgbToHex_hash (v : String) (t : List Char) (hv : v.data = '#' :: t)
    (hfind : findRgbMatch v.toList = none)
    (h9 : ¬(v.length = 9 ∧ strEndsWith v "00" = true))
    (h5 : ¬(v.length = 5 ∧ strEndsWith v "0" = true)) :
    rgbToHex v = some v := by
  unfold rgbToHex
  rw [if_neg (ne_keyword_of_hash hv)]
  rw [hfind, show v.toList = '#' :: t from hv]
  rw [if_neg h9, if_neg h5]
  rfl

theorem rgbToHex_built (v rest : String) (hv : v = "#" ++ rest)
    (hparen : '(' ∉ rest.data) (hlen : 6 ≤ rest.length)
    (h9 : ¬(v.length = 9 ∧ strEndsWith v "00" = true)) :
    rgbToHex v = some v := by
  have hdata : v.data = '#' :: rest.data := by
    rw [hv, String.data_append]
    rfl
  have hparen' : '(' ∉ v.toList := by
    rw [show v.toList = '#' :: rest.data from hdata]
    intro hm
    rcases List.mem_cons.mp hm with hm | hm
    · exact absurd hm (by decide)
    · exact hparen hm
  have hlen' : v.length = 1 + rest.length := by
    rw [hv, String.length_append]
    rfl
  refine rgbToHex_hash v rest.data hdata (findRgbMatch_none hparen') h9 ?_
  rintro ⟨hl5, _⟩
  omega

theorem pad2_natToHex_ne_paren (n : ℕ) : '(' ∉ (pad2 (natToHex n)).data :=
  pad2_ne_paren _ (natToHex_ne_paren n)

/-- Claim C7 (amended): `rgbToHex` is idempotent on every hex string it
returns whose shape is not the fully-transparent `#xxxxxxxx`/`#xxx0` pattern
rejected by the passthrough checks: if `rgbToHex c = some v` and `v` is not a
9-character string ending in `"00"`, then `rgbToHex v = some v`. -/
theorem rgbToHex_idempotent (c v : String) (h : rgbToHex c = some v)
    (h9 : ¬(v.length = 9 ∧ strEndsWith v "00" = true)) :
    rgbToHex v = some v := by
  unfold rgbToHex at h
  split at h
  · exact absurd h (by simp)
  · split at h
    · next m hm =>
      dsimp only at h
      split at h
      · exact absurd h (by simp)
      · set A := pad2 (natToHex (digitsToNat m.r)) with hA
        set B := pad2 (natToHex (digitsToNat m.g)) with hB
        set C := pad2 (natToHex (digitsToNat m.b)) with hC
        have hABC : '(' ∉ (A ++ B ++ C).data := by
          simp only [String.data_append]
          intro hmem
          rcases List.mem_append.mp hmem with hmem | hmem
          · rcases List.mem_append.mp hmem with hmem | hmem
            · exact pad2_natToHex_ne_paren _ hmem
            · exact pad2_natToHex_ne_paren _ hmem
          · exact pad2_natToHex_ne_paren _ hmem
        have hA2 : 2 ≤ A.length := by
          rw [hA]
          exact pad2_length_ge _
        have hB2 : 2 ≤ B.length := by
          rw [hB]
          exact pad2_length_ge _
        have hC2 : 2 ≤ C.length := by
          rw [hC]
          exact pad2_length_ge _
        have hABClen : 6 ≤ (A ++ B ++ C).length := by
          simp only [String.length_append]
          omega
        split at h
        · next q hq =>
          split at h
          · next hq1 =>
            injection h with hveq
            set D := pad2 (natToHex (jsRoundNat (q * 255))) with hD
            refine rgbToHex_built v (A ++ B ++ C ++ D) ?_ ?_ ?_ h9
            · rw [← hveq]
              simp [String.append_assoc]
            · simp only [String.data_append]
              intro hmem
              rcases List.mem_append.mp hmem with hmem | hmem
              · exact hABC (by simpa [String.data_append] using hmem)
              · exact pad2_natToHex_ne_paren _ hmem
            · simp only [String.length_append]
              simp only [String.length_append] at hABClen
              omega
          · next hq1 =>
            injection h with hveq
            refine rgbToHex_built v (A ++ B ++ C) ?_ hABC hABClen h9
            rw [← hveq]
            simp [String.append_assoc]
        · next hqnone =>
          injection h with hveq
          refine rgbToHex_built v (A ++ B ++ C) ?_ hABC hABClen h9
          rw [← hveq]
          simp [String.append_assoc]
    · next hm =>
      split at h
      · next tail heq =>
        split at h
        · exact absurd h (by simp)
        · next h9c =>
          split at h
          · exact absurd h (by simp)
          · next h5c =>
            injection h with hveq
            subst hveq
            exact rgbToHex_hash c tail (by rw [← heq]; rfl) hm h9 h5c
      · exact absurd h (by simp)

/-- Claim C7 (counterexample): `rgbToHex` can return `"#00000000"` (for the
barely-visible alpha `0.001`, whose byte rounds to `00`), and converting that
returned value again yields `undefined`, not the value itself — so the
converter is not idempotent on every hex string it can return. -/
theorem rgbToHex_counterexample :
    rgbToHex "rgba(0, 0, 0, 0.001)" = some "#00000000" ∧
    rgbToHex "#00000000" = none := by
  constructor
  · with_unfolding_all rfl
  · with_unfolding_all rfl

/-- Claim C7 witness: a plain `rgb()` input converts to `"#010203"`, and
converting the result again returns it unchanged. -/
theorem rgbToHex_idempotent_witness :
    rgbToHex "rgb(1, 2, 3)" = some "#010203" ∧
    rgbToHex "#010203" = some "#010203" :=
  ⟨by with_unfolding_all rfl,
    rgbToHex_idempotent "rgb(1, 2, 3)" "#010203" (by with_unfolding_all rfl)
      (by with_unfolding_all decide)⟩
